import Mathlib

/-!
# Trace reactor (`trace/reactor.go`): message decoding and dispatch

A shallow embedding of `DecodeMessage` and `Reactor.Receive`.  Both are thin
layers over two libraries that are not part of the source tree, so the routines
they call are embedded too, from the libraries' own code, each under the name it
has there:

* go-wire: the reader `wire.ReadBinary` (with `ReadByteSlice`, `ReadVarint`,
  `ReadUint8`, `ReadFull`) and the writer `wire.BinaryBytes` (with
  `WriteByteSlice`, `WriteVarint`).  The reader works on a `bytes.Reader` with a
  byte counter `*n` and a sticky error `*err`; this is the record `ReadState`.
  The limit `lmt` is compared with the bytes the reader has consumed.
* go-p2p: `Peer.Equals`, `Peer.Send`, `PeerSet.List`, `PeerSet.Get`.

The Router and the SHA-256 digest are parameters.  The effects of `Receive`
(Router calls, sends, the warning log) are collected in an event list, next to
the way the call ends: a normal return or a Go run-time panic.
-/

namespace Trace

/-- A Go `byte`. -/
abbrev Byte := Fin 256

/-- Conversion `uint8(x)` of a non-negative integer. -/
def toByte (x : Nat) : Byte := ⟨x % 256, Nat.mod_lt x (by decide)⟩

/-- `SpecialOPChannel = byte(0x50)`. -/
def SpecialOPChannel : Byte := 0x50

/-- `maxTraceMessageSize = 1048576`. -/
def maxTraceMessageSize : Nat := 1048576

/-- `msgTypeTraceRequest = byte(0x11)`. -/
def msgTypeTraceRequest : Byte := 0x11

/-- `msgTypeTraceResponse = byte(0x12)`. -/
def msgTypeTraceResponse : Byte := 0x12

/-- The Go struct `channelAttribute`. -/
structure channelAttribute where
  ValidatorOnly : Bool
  deriving DecidableEq, Repr

/-- The values of the Go interface `Message` that the registered decoder can
produce: the nil interface, a `*traceRequest`, a `*traceResponse`. -/
inductive Message where
  | nil : Message
  | traceRequest (Data : List Byte) : Message
  | traceResponse (RequestHash : List Byte) (Resp : List Byte) : Message
  deriving DecidableEq, Repr

/-- Run-time panics of Go that the embedded code can reach. -/
inductive GoPanic where
  | indexOutOfRange : GoPanic
  | nilPointerDereference : GoPanic
  deriving DecidableEq, Repr

/-- Errors the go-wire reader stores in `*err`. -/
inductive WireError where
  | EOF : WireError
  | ErrUnexpectedEOF : WireError
  | VarintOverflow : WireError
  | VarintNegativeZero : WireError
  | ErrBinaryReadInvalidLength : WireError
  | ErrBinaryReadOverflow : WireError
  | UnexpectedTypeByte (typeByte : Byte) : WireError
  deriving DecidableEq, Repr

/-- The mutable state threaded through the go-wire readers: the unread bytes of
the `bytes.Reader`, the counter `*n` and the error slot `*err`. -/
structure ReadState where
  rest : List Byte
  n : Nat
  err : Option WireError
  deriving DecidableEq, Repr

/-- Wrap-around of Go's 64-bit `int`. -/
def int64 (x : Int) : Int := (x + 2 ^ 63) % 2 ^ 64 - 2 ^ 63

/-- Library routine `wire.ReadFull(buf, r, n, err)` with `len(buf) = len`: does
nothing when `*err` is already set; otherwise `io.ReadFull`, which fills the
buffer, adds the bytes read to `*n` and reports `io.EOF` (nothing read) or
`io.ErrUnexpectedEOF` (some read) when the reader runs short.  The buffer starts
zeroed, so unread positions stay zero. -/
def ReadFull (len : Nat) (s : ReadState) : List Byte × ReadState :=
  match s.err with
  | some _ => (List.replicate len 0, s)
  | none =>
    let got := s.rest.take len
    let buf := got ++ List.replicate (len - got.length) 0
    let e : Option WireError :=
      if got.length = len then none
      else if got.length = 0 then some WireError.EOF
      else some WireError.ErrUnexpectedEOF
    (buf, { rest := s.rest.drop len, n := s.n + got.length, err := e })

/-- Library routine `wire.ReadUint8` (and `wire.ReadByte`): one byte through
`ReadFull`. -/
def ReadUint8 (s : ReadState) : Byte × ReadState :=
  let r := ReadFull 1 s
  (r.1.headD 0, r.2)

/-- Library helper `setFirstErr`: stores the error unless one is stored. -/
def setFirstErr (s : ReadState) (e : WireError) : ReadState :=
  match s.err with
  | some _ => s
  | none => { s with err := some e }

/-- Big-endian `binary.BigEndian.Uint64(buf)`. -/
def Uint64 (buf : List Byte) : Nat :=
  buf.foldl (fun acc b => acc * 256 + b.val) 0

/-- Big-endian `binary.BigEndian.PutUint64(buf, u)` on a buffer of 8 bytes. -/
def PutUint64 (u : Nat) : List Byte :=
  [toByte (u / 2 ^ 56), toByte (u / 2 ^ 48), toByte (u / 2 ^ 40), toByte (u / 2 ^ 32),
   toByte (u / 2 ^ 24), toByte (u / 2 ^ 16), toByte (u / 2 ^ 8), toByte u]

/-- Library routine `wire.ReadVarint(r, n, err)` of go-wire: `size` is one byte
from `ReadUint8`; `(size >> 4) == 0xF` marks a negative number and leaves
`size & 0x0F`; `size > 8` is "Varint overflow"; `size == 0` returns 0 (an error
for a negative zero); otherwise `size` bytes are read into `buf[(8-size):]` of a
zeroed buffer of 8 bytes and the result is `int(binary.BigEndian.Uint64(buf))`,
negated when marked so. -/
def ReadVarint (s : ReadState) : Int × ReadState :=
  let r := ReadUint8 s
  let negate : Bool := r.1.val / 16 = 15
  let size : Nat := if negate then r.1.val % 16 else r.1.val
  if 8 < size then (0, setFirstErr r.2 WireError.VarintOverflow)
  else if size = 0 then
    (0, if negate then setFirstErr r.2 WireError.VarintNegativeZero else r.2)
  else
    let b := ReadFull size r.2
    let i : Int := int64 (Uint64 (List.replicate (8 - size) 0 ++ b.1) : Nat)
    (if negate then int64 (-i) else i, b.2)

/-- Library routine `wire.ReadByteSlice(r, lmt, n, err)` of go-wire:
`length := ReadVarint(r, n, err)`; return nil when `*err != nil`;
`ErrBinaryReadInvalidLength` when `length < 0`; `ErrBinaryReadOverflow` when
`lmt != 0 && lmt < MaxInt(length, *n+length)`; otherwise a buffer of `length`
bytes filled by `ReadFull`. -/
def ReadByteSlice (lmt : Int) (s : ReadState) : List Byte × ReadState :=
  let v := ReadVarint s
  if v.2.err.isSome then ([], v.2)
  else if v.1 < 0 then ([], { v.2 with err := some WireError.ErrBinaryReadInvalidLength })
  else if lmt ≠ 0 ∧ lmt < max v.1 (int64 ((v.2.n : Int) + v.1)) then
    ([], { v.2 with err := some WireError.ErrBinaryReadOverflow })
  else ReadFull v.1.toNat v.2

/-- The reflective reader of go-wire at the struct `traceRequest`: its field
`Data []byte`. -/
def readTraceRequest (lmt : Int) (s : ReadState) : Message × ReadState :=
  let d := ReadByteSlice lmt s
  (Message.traceRequest d.1, d.2)

/-- The reflective reader of go-wire at the struct `traceResponse`: its fields
`RequestHash []byte` and `Resp []byte`, in declaration order, with no stop
between them (a set `*err` turns the later reads into no-ops). -/
def readTraceResponse (lmt : Int) (s : ReadState) : Message × ReadState :=
  let h := ReadByteSlice lmt s
  let r := ReadByteSlice lmt h.2
  (Message.traceResponse h.1 r.1, r.2)

/-- The reflective reader of go-wire at the interface `Message` as registered by
`wire.RegisterInterface` in the source (`0x11` for `*traceRequest`, `0x12` for
`*traceResponse`): a type byte, `0x00` for the nil interface, an error for a
byte with no registered type. -/
def readMessage (lmt : Int) (s : ReadState) : Message × ReadState :=
  let t := ReadUint8 s
  if t.2.err.isSome then (Message.nil, t.2)
  else if t.1 = 0x00 then (Message.nil, t.2)
  else if t.1 = msgTypeTraceRequest then readTraceRequest lmt t.2
  else if t.1 = msgTypeTraceResponse then readTraceResponse lmt t.2
  else (Message.nil, { t.2 with err := some (WireError.UnexpectedTypeByte t.1) })

/-- Library routine `wire.ReadBinary(struct{ Message }{}, r, lmt, n, &err)` of
go-wire as `DecodeMessage` calls it, on a fresh `bytes.NewReader(bz)` with
`*n = 0` and `*err = nil`: the reflective read of the one field of the struct,
then `if lmt != 0 && lmt < *n && *err == nil { *err = ErrBinaryReadOverflow }`.
The reader is only read from: bytes after the value are never looked at. -/
def ReadBinary (bz : List Byte) (lmt : Int) : Message × ReadState :=
  let m := readMessage lmt { rest := bz, n := 0, err := none }
  if lmt ≠ 0 ∧ lmt < (m.2.n : Int) ∧ m.2.err = none then
    (m.1, { m.2 with err := some WireError.ErrBinaryReadOverflow })
  else m

/-- The source function `DecodeMessage`: `msgType = bz[0]` (a run-time panic on
an empty slice), then `wire.ReadBinary` with the limit `maxTraceMessageSize`.
The result is the Go triple `(msgType, msg, err)`. -/
def DecodeMessage (bz : List Byte) : Except GoPanic (Byte × Message × Option WireError) :=
  match bz with
  | [] => Except.error GoPanic.indexOutOfRange
  | msgType :: _ =>
    let m := ReadBinary bz (maxTraceMessageSize : Nat)
    Except.ok (msgType, m.1, m.2.err)

/-- Library helper `uvarintSize`: the number of bytes of the big-endian form. -/
def uvarintSize (i : Nat) : Nat :=
  if i = 0 then 0
  else if i < 2 ^ 8 then 1
  else if i < 2 ^ 16 then 2
  else if i < 2 ^ 24 then 3
  else if i < 2 ^ 32 then 4
  else if i < 2 ^ 40 then 5
  else if i < 2 ^ 48 then 6
  else if i < 2 ^ 56 then 7
  else 8

/-- Library routine `wire.WriteVarint`: the size byte (plus `0xF0` for a
negative number) and the last `size` bytes of the big-endian form of `|i|`. -/
def WriteVarint (i : Int) : List Byte :=
  let negate : Bool := i < 0
  let a : Int := if negate then int64 (-i) else i
  let u : Nat := (a % 2 ^ 64).toNat
  let size := uvarintSize u
  (if negate then toByte (size + 0xF0) else toByte size) ::
    (if 0 < size then (PutUint64 u).drop (8 - size) else [])

/-- Library routine `wire.WriteByteSlice`: the varint length, then the bytes. -/
def WriteByteSlice (bz : List Byte) : List Byte :=
  WriteVarint (bz.length : Nat) ++ bz

/-- Library routine `wire.BinaryBytes(struct{ Message }{msg})`, the bytes that
`Peer.Send` puts on the wire for the value `Receive` hands to it: the type byte
of the registered concrete type, then its fields in order; `0x00` for nil. -/
def BinaryBytes (msg : Message) : List Byte :=
  match msg with
  | Message.nil => [0x00]
  | Message.traceRequest Data => msgTypeTraceRequest :: WriteByteSlice Data
  | Message.traceResponse RequestHash Resp =>
    msgTypeTraceResponse :: (WriteByteSlice RequestHash ++ WriteByteSlice Resp)

/-- The type byte registered for the variant of a message. -/
def Message.typeByte (msg : Message) : Byte :=
  match msg with
  | Message.nil => 0x00
  | Message.traceRequest _ => msgTypeTraceRequest
  | Message.traceResponse _ _ => msgTypeTraceResponse

/-- A Go slice length is a non-negative `int`: the fields of a message value
that exists in a Go process are shorter than `2^63`. -/
def Message.valid (msg : Message) : Prop :=
  match msg with
  | Message.nil => True
  | Message.traceRequest Data => Data.length < 2 ^ 63
  | Message.traceResponse RequestHash Resp =>
    RequestHash.length < 2 ^ 63 ∧ Resp.length < 2 ^ 63

/-- A go-p2p peer: its `Key` (the identity `Equals` and the peer set use) and the
public key of its node info. -/
structure Peer where
  Key : String
  PubKey : List Byte
  deriving DecidableEq, Repr

/-- Library method `Peer.Equals`: `p.Key == other.Key`. -/
def Peer.Equals (p other : Peer) : Bool := p.Key == other.Key

/-- The peer set of the switch, `tr.Switch.Peers()`, as the list that `List()`
returns. -/
structure PeerSet where
  list : List Peer
  deriving DecidableEq, Repr

/-- Library method `PeerSet.List`. -/
def PeerSet.List (ps : PeerSet) : List Peer := ps.list

/-- Library method `PeerSet.Get`: the peer stored under the key, or nil. -/
def PeerSet.Get (ps : PeerSet) (peerKey : String) : Option Peer :=
  ps.list.find? (fun p => p.Key == peerKey)

/-- One upper-case hexadecimal digit. -/
def hexDigit (d : Nat) : Char :=
  if d < 10 then Char.ofNat (48 + d) else Char.ofNat (55 + d)

/-- The Go call `fmt.Sprintf("%X", pk)` on a byte slice: two upper-case
hexadecimal digits per byte. -/
def SprintfX (pk : List Byte) : String :=
  String.mk (List.flatten (pk.map fun b => [hexDigit (b.val / 16), hexDigit (b.val % 16)]))

/-- A Go `error` value returned by the Router. -/
structure RouterError where
  text : String
  deriving DecidableEq, Repr

/-- The Router consulted by `Receive`, by its two methods.  A `none` error is
Go's `nil` error; a `none` key is Go's `nil` key. -/
structure Router where
  TraceRequest : List Byte → List Byte → List Byte → Bool → Bool × Option RouterError
  TraceRespond : List Byte → List Byte → Option (List Byte) × Option RouterError

/-- A Go `map[byte]channelAttribute`. -/
abbrev ChannelAttributes := Byte → Option channelAttribute

/-- Go map assignment `m[k] = v`. -/
def ChannelAttributes.set (m : ChannelAttributes) (k : Byte) (v : channelAttribute) :
    ChannelAttributes :=
  fun c => if c = k then some v else m c

/-- Go map read `m[k]`: the zero value for a key that is not in the map. -/
def ChannelAttributes.index (m : ChannelAttributes) (k : Byte) : channelAttribute :=
  (m k).getD { ValidatorOnly := false }

/-- The source function `newChannelAttributes`. -/
def newChannelAttributes : ChannelAttributes :=
  ChannelAttributes.set (fun _ => none) SpecialOPChannel { ValidatorOnly := true }

/-- The fields of the Go struct `Reactor` that `Receive` reads: the router, the
peer set of the switch of the embedded base reactor, and the channel attributes.
`BinarySha256` is the library digest `wire.BinarySha256`. -/
structure Reactor where
  router : Router
  Switch : PeerSet
  channelAttributes : ChannelAttributes
  BinarySha256 : Message → List Byte

/-- The source function `NewTraceReactor`; the switch has no peers until the
transport sets it. -/
def NewTraceReactor (BinarySha256 : Message → List Byte) (r : Router) : Reactor :=
  { router := r, Switch := { list := [] }, channelAttributes := newChannelAttributes,
    BinarySha256 := BinarySha256 }

/-- Library method `BaseReactor.SetSwitch`. -/
def Reactor.SetSwitch (tr : Reactor) (sw : PeerSet) : Reactor :=
  { tr with Switch := sw }

/-- The source function `HashMessage`: `wire.BinarySha256(o)`. -/
def HashMessage (BinarySha256 : Message → List Byte) (o : Message) : List Byte :=
  BinarySha256 o

/-- The observable steps of one `Receive` call. -/
inductive Event where
  | LogWarn (err : WireError) : Event
  | RouterTraceRequest (hash sourcePublicKey payload : List Byte) (validatorOnly : Bool) : Event
  | RouterTraceRespond (requestHash payload : List Byte) : Event
  | Send (target : Peer) (chID : Byte) (msg : Message) : Event
  deriving DecidableEq, Repr

/-- What one `Receive` call did: its events in order, and whether it returned or
ended in a panic. -/
structure Effects where
  events : List Event
  outcome : Except GoPanic Unit

/-- The loop `for _, p := range tr.Switch.Peers().List()` of `Receive`, with its
body `if !p.Equals(src) { p.Send(SpecialOPChannel, struct{ Message }{msg}) }`. -/
def broadcastLoop (src : Peer) (msg : Message) : List Peer → List Event
  | [] => []
  | p :: ps =>
    if !p.Equals src then Event.Send p SpecialOPChannel msg :: broadcastLoop src msg ps
    else broadcastLoop src msg ps

/-- The `*traceRequest` case of `Receive`. -/
def receiveTraceRequest (tr : Reactor) (src : Peer) (msg : Message) (Data : List Byte) :
    Effects :=
  let hash := HashMessage tr.BinarySha256 msg
  let validatorOnly := (tr.channelAttributes.index SpecialOPChannel).ValidatorOnly
  let call := Event.RouterTraceRequest hash src.PubKey Data validatorOnly
  let res := tr.router.TraceRequest hash src.PubKey Data validatorOnly
  match res.2 with
  | some _ => { events := [call], outcome := Except.ok () }
  | none =>
    if res.1 then
      { events := call :: broadcastLoop src msg tr.Switch.List, outcome := Except.ok () }
    else { events := [call], outcome := Except.ok () }

/-- The `*traceResponse` case of `Receive`.  The result of `Get` is used with no
nil check: `Peer.Send` on a nil `*Peer` dereferences it (its first statement is
`p.IsRunning()`), a nil pointer panic. -/
def receiveTraceResponse (tr : Reactor) (msg : Message) (RequestHash Resp : List Byte) :
    Effects :=
  let call := Event.RouterTraceRespond RequestHash Resp
  let res := tr.router.TraceRespond RequestHash Resp
  match res.2 with
  | some _ => { events := [call], outcome := Except.ok () }
  | none =>
    match res.1 with
    | none => { events := [call], outcome := Except.ok () }
    | some pk =>
      match tr.Switch.Get (SprintfX pk) with
      | some peer =>
        { events := [call, Event.Send peer SpecialOPChannel msg], outcome := Except.ok () }
      | none => { events := [call], outcome := Except.error GoPanic.nilPointerDereference }

/-- The source method `Reactor.Receive`. -/
def Receive (tr : Reactor) (chID : Byte) (src : Peer) (msgBytes : List Byte) : Effects :=
  match DecodeMessage msgBytes with
  | Except.error p => { events := [], outcome := Except.error p }
  | Except.ok (_, msg, err) =>
    match err with
    | some e => { events := [Event.LogWarn e], outcome := Except.ok () }
    | none =>
      if chID = SpecialOPChannel then
        match msg with
        | Message.traceRequest Data => receiveTraceRequest tr src msg Data
        | Message.traceResponse RequestHash Resp =>
          receiveTraceResponse tr msg RequestHash Resp
        | Message.nil => { events := [], outcome := Except.ok () }
      else { events := [], outcome := Except.ok () }

/-- The sends among the events. -/
def sends (es : List Event) : List Event :=
  es.filter fun e => match e with
    | Event.Send _ _ _ => true
    | _ => false

/-- The router calls among the events. -/
def routerCalls (es : List Event) : List Event :=
  es.filter fun e => match e with
    | Event.RouterTraceRequest _ _ _ _ => true
    | Event.RouterTraceRespond _ _ => true
    | _ => false

/-! ## Sample data for the scenarios -/

/-- A public key of 32 bytes ending in `b`. -/
def scenarioPubKey (b : Byte) : List Byte := List.replicate 31 0 ++ [b]

/-- A peer whose key is the upper-case hexadecimal form of its public key. -/
def scenarioPeer (b : Byte) : Peer :=
  { Key := SprintfX (scenarioPubKey b), PubKey := scenarioPubKey b }

/-- Peer P1 of the scenarios. -/
def peerP1 : Peer := scenarioPeer 1

/-- Peer P2 of the scenarios. -/
def peerP2 : Peer := scenarioPeer 2

/-- Peer P3 of the scenarios. -/
def peerP3 : Peer := scenarioPeer 3

/-- A stand-in for the digest in the scenarios: the bytes of the value. -/
def scenarioDigest (o : Message) : List Byte := BinaryBytes o

/-- A router that asks for a broadcast and names P2 as destination. -/
def routerAccept : Router :=
  { TraceRequest := fun _ _ _ _ => (true, none),
    TraceRespond := fun _ _ => (some (scenarioPubKey 2), none) }

/-- A router that declines: no broadcast, no destination. -/
def routerDecline : Router :=
  { TraceRequest := fun _ _ _ _ => (false, none),
    TraceRespond := fun _ _ => (none, none) }

/-- The reactor of the scenarios with the given router and connected peers. -/
def scenarioReactor (r : Router) (peers : List Peer) : Reactor :=
  (NewTraceReactor scenarioDigest r).SetSwitch { list := peers }

/-- The payload "ping". -/
def pingData : List Byte := [0x70, 0x69, 0x6E, 0x67]

/-- The frame of `TraceRequest{Data: "ping"}`. -/
def pingFrame : List Byte := [0x11, 0x01, 0x04, 0x70, 0x69, 0x6E, 0x67]

/-- The frame of `TraceResponse{RequestHash: [0xAA], Resp: "pong"}`. -/
def pongFrame : List Byte := [0x12, 0x01, 0x01, 0xAA, 0x01, 0x04, 0x70, 0x6F, 0x6E, 0x67]

/-- A frame of 1,048,577 bytes: the encoding of a request with empty data (2
bytes) followed by 1,048,575 trailing zero bytes. -/
def oversizedFrame : List Byte := [0x11, 0x00] ++ List.replicate 1048575 0

/-- A request whose encoding has exactly 1,048,576 bytes: 1 type byte, 4 length
bytes and 1,048,571 data bytes. -/
def maximalRequest : Message := Message.traceRequest (List.replicate 1048571 0)

/-! ## The go-wire reader on the bytes the writer produces -/

theorem toByte_val (x : Nat) : (toByte x).val = x % 256 := rfl

theorem uvarintSize_le (u : Nat) : uvarintSize u ≤ 8 := by
  unfold uvarintSize
  split_ifs <;> omega

theorem uvarintSize_eq_zero (u : Nat) : uvarintSize u = 0 ↔ u = 0 := by
  unfold uvarintSize
  split_ifs <;> simp <;> omega

theorem length_PutUint64 (u : Nat) : (PutUint64 u).length = 8 := rfl

theorem Uint64_PutUint64 (u : Nat) (hu : u < 2 ^ 64) :
    Uint64 (List.replicate (8 - uvarintSize u) 0 ++ (PutUint64 u).drop (8 - uvarintSize u))
      = u := by
  unfold uvarintSize
  split_ifs <;>
    simp [PutUint64, Uint64, toByte_val, List.replicate]
  all_goals omega

theorem ReadFull_append (bs tl : List Byte) (n : Nat) :
    ReadFull bs.length { rest := bs ++ tl, n := n, err := none }
      = (bs, { rest := tl, n := n + bs.length, err := none }) := by
  simp [ReadFull]

theorem ReadFull_append_of_length (k : Nat) (bs tl : List Byte) (n : Nat) (hk : bs.length = k) :
    ReadFull k { rest := bs ++ tl, n := n, err := none }
      = (bs, { rest := tl, n := n + k, err := none }) := by
  subst hk
  exact ReadFull_append bs tl n

theorem ReadUint8_cons (b : Byte) (tl : List Byte) (n : Nat) :
    ReadUint8 { rest := b :: tl, n := n, err := none }
      = (b, { rest := tl, n := n + 1, err := none }) := by
  simp [ReadUint8, ReadFull]

theorem int64_of_small (x : Int) (h0 : 0 ≤ x) (h1 : x < 2 ^ 63) : int64 x = x := by
  unfold int64
  omega

theorem WriteVarint_natCast (L : Nat) (h : L < 2 ^ 63) :
    WriteVarint (L : Int)
      = toByte (uvarintSize L) :: (PutUint64 L).drop (8 - uvarintSize L) := by
  have hneg : ¬ ((L : Int) < 0) := by omega
  have hu : (((L : Int) % 2 ^ 64).toNat) = L := by omega
  simp only [WriteVarint, hneg, decide_False, Bool.false_eq_true, if_false, hu]
  by_cases hz : uvarintSize L = 0
  · simp [hz, PutUint64]
  · have : 0 < uvarintSize L := Nat.pos_of_ne_zero hz
    simp [this]

theorem length_WriteVarint (L : Nat) (h : L < 2 ^ 63) :
    (WriteVarint (L : Int)).length = 1 + uvarintSize L := by
  rw [WriteVarint_natCast L h]
  have := uvarintSize_le L
  simp [length_PutUint64]
  omega

theorem ReadVarint_WriteVarint (L : Nat) (h : L < 2 ^ 63) (tl : List Byte) (n : Nat) :
    ReadVarint { rest := WriteVarint (L : Int) ++ tl, n := n, err := none }
      = ((L : Int), { rest := tl, n := n + (1 + uvarintSize L), err := none }) := by
  have hle := uvarintSize_le L
  have hval : (toByte (uvarintSize L)).val = uvarintSize L := by
    rw [toByte_val]; omega
  have hnib : ¬ (uvarintSize L / 16 = 15) := by omega
  rw [WriteVarint_natCast L h]
  simp only [ReadVarint, List.cons_append, ReadUint8_cons, hval, hnib, decide_False,
    Bool.false_eq_true, if_false]
  by_cases hz : uvarintSize L = 0
  · have hL : L = 0 := (uvarintSize_eq_zero L).1 hz
    subst hL
    simp [hz, PutUint64]
  · have h8 : ¬ (8 < uvarintSize L) := by omega
    have hlen : ((PutUint64 L).drop (8 - uvarintSize L)).length = uvarintSize L := by
      simp [length_PutUint64]; omega
    rw [if_neg h8, if_neg hz, ReadFull_append_of_length _ _ _ _ hlen]
    have hU := Uint64_PutUint64 L (by omega)
    simp only [hU]
    rw [int64_of_small _ (by omega) (by omega)]
    congr 2
    omega

theorem length_WriteByteSlice (d : List Byte) (hd : d.length < 2 ^ 63) :
    (WriteByteSlice d).length = 1 + uvarintSize d.length + d.length := by
  simp [WriteByteSlice, length_WriteVarint d.length hd]

theorem length_le_WriteByteSlice (d : List Byte) : d.length ≤ (WriteByteSlice d).length := by
  simp [WriteByteSlice]

theorem ReadVarint_WriteByteSlice (d tl : List Byte) (n : Nat) (hd : d.length < 2 ^ 63) :
    ReadVarint { rest := WriteByteSlice d ++ tl, n := n, err := none }
      = ((d.length : Int),
          { rest := d ++ tl, n := n + (1 + uvarintSize d.length), err := none }) := by
  have := ReadVarint_WriteVarint d.length hd (d ++ tl) n
  simpa [WriteByteSlice, List.append_assoc] using this

theorem ReadByteSlice_WriteByteSlice (lmt : Nat) (d tl : List Byte) (n : Nat)
    (hlmt : lmt < 2 ^ 61) (hfit : n + (WriteByteSlice d).length ≤ lmt) :
    ReadByteSlice (lmt : Int) { rest := WriteByteSlice d ++ tl, n := n, err := none }
      = (d, { rest := tl, n := n + (WriteByteSlice d).length, err := none }) := by
  have hdl := length_le_WriteByteSlice d
  have hd : d.length < 2 ^ 63 := by omega
  have hlen := length_WriteByteSlice d hd
  have hsum : int64 (((n + (1 + uvarintSize d.length) : Nat) : Int) + (d.length : Int))
      = ((n + (1 + uvarintSize d.length) : Nat) : Int) + (d.length : Int) :=
    int64_of_small _ (by omega) (by omega)
  have hchk : ¬ ((lmt : Int) ≠ 0 ∧ (lmt : Int) <
      max (d.length : Int)
        (int64 (((n + (1 + uvarintSize d.length) : Nat) : Int) + (d.length : Int)))) := by
    intro hc
    have h2 := hc.2
    rw [hsum, lt_max_iff] at h2
    omega
  have hneg : ¬ ((d.length : Int) < 0) := by omega
  simp only [ReadByteSlice]
  rw [ReadVarint_WriteByteSlice d tl n hd]
  dsimp only
  have hadd : n + (1 + uvarintSize d.length) + d.length
      = n + (1 + uvarintSize d.length + d.length) := by omega
  rw [if_neg (by simp), if_neg hneg, if_neg hchk, Int.toNat_ofNat, ReadFull_append, hlen, hadd]

theorem ReadByteSlice_overflow (lmt : Nat) (d tl : List Byte) (n : Nat)
    (hl : 0 < lmt) (hlmt : lmt < 2 ^ 61) (hd : d.length < 2 ^ 63) (hn : n < 2 ^ 61)
    (hover : lmt < n + (WriteByteSlice d).length) :
    ReadByteSlice (lmt : Int) { rest := WriteByteSlice d ++ tl, n := n, err := none }
      = ([], { rest := d ++ tl, n := n + (1 + uvarintSize d.length),
               err := some WireError.ErrBinaryReadOverflow }) := by
  have hlen := length_WriteByteSlice d hd
  have hle := uvarintSize_le d.length
  have hchk : (lmt : Int) ≠ 0 ∧ (lmt : Int) <
      max (d.length : Int)
        (int64 (((n + (1 + uvarintSize d.length) : Nat) : Int) + (d.length : Int))) := by
    refine ⟨by omega, ?_⟩
    rw [lt_max_iff]
    by_cases hbig : (lmt : Int) < (d.length : Int)
    · exact Or.inl hbig
    · right
      rw [int64_of_small _ (by omega) (by omega)]
      omega
  have hneg : ¬ ((d.length : Int) < 0) := by omega
  simp only [ReadByteSlice]
  rw [ReadVarint_WriteByteSlice d tl n hd]
  dsimp only
  rw [if_neg (by simp), if_neg hneg, if_pos hchk]

theorem ReadByteSlice_of_err (lmt : Int) (s : ReadState) (e : WireError)
    (he : s.err = some e) : ReadByteSlice lmt s = ([], s) := by
  have hv : ReadVarint s = (0, s) := by
    simp [ReadVarint, ReadUint8, ReadFull, he]
  simp [ReadByteSlice, hv, he]

theorem readMessage_BinaryBytes (lmt : Nat) (m : Message) (tl : List Byte)
    (hlmt : lmt < 2 ^ 61) (hfit : (BinaryBytes m).length ≤ lmt) :
    readMessage (lmt : Int) { rest := BinaryBytes m ++ tl, n := 0, err := none }
      = (m, { rest := tl, n := (BinaryBytes m).length, err := none }) := by
  cases m with
  | nil =>
    simp [BinaryBytes, readMessage, ReadUint8_cons]
  | traceRequest Data =>
    have h1 : (0 + 1) + (WriteByteSlice Data).length ≤ lmt := by
      simp [BinaryBytes] at hfit; omega
    simp only [BinaryBytes, List.cons_append, readMessage, ReadUint8_cons, readTraceRequest,
      ReadByteSlice_WriteByteSlice lmt Data tl (0 + 1) hlmt h1]
    simp [msgTypeTraceRequest]
    omega
  | traceResponse RequestHash Resp =>
    have hlen : (BinaryBytes (Message.traceResponse RequestHash Resp)).length
        = 1 + (WriteByteSlice RequestHash).length + (WriteByteSlice Resp).length := by
      simp [BinaryBytes]; omega
    have h1 : (0 + 1) + (WriteByteSlice RequestHash).length ≤ lmt := by omega
    have h2 : ((0 + 1) + (WriteByteSlice RequestHash).length)
        + (WriteByteSlice Resp).length ≤ lmt := by omega
    rw [hlen]
    simp only [BinaryBytes, List.cons_append, List.append_assoc, readMessage, ReadUint8_cons,
      readTraceResponse,
      ReadByteSlice_WriteByteSlice lmt RequestHash (WriteByteSlice Resp ++ tl) (0 + 1) hlmt h1,
      ReadByteSlice_WriteByteSlice lmt Resp tl _ hlmt h2]
    simp [msgTypeTraceRequest, msgTypeTraceResponse]

theorem readMessage_overflow (lmt : Nat) (m : Message) (tl : List Byte)
    (hl : 0 < lmt) (hlmt : lmt < 2 ^ 61) (hv : m.valid)
    (hover : lmt < (BinaryBytes m).length) :
    (readMessage (lmt : Int) { rest := BinaryBytes m ++ tl, n := 0, err := none }).2.err
      = some WireError.ErrBinaryReadOverflow := by
  cases m with
  | nil =>
    simp [BinaryBytes] at hover
    omega
  | traceRequest Data =>
    have h1 : lmt < (0 + 1) + (WriteByteSlice Data).length := by
      simp [BinaryBytes] at hover; omega
    simp only [BinaryBytes, List.cons_append, readMessage, ReadUint8_cons, readTraceRequest,
      ReadByteSlice_overflow lmt Data tl (0 + 1) hl hlmt hv (by omega) h1]
    simp [msgTypeTraceRequest]
  | traceResponse RequestHash Resp =>
    have hlen : (BinaryBytes (Message.traceResponse RequestHash Resp)).length
        = 1 + (WriteByteSlice RequestHash).length + (WriteByteSlice Resp).length := by
      simp [BinaryBytes]; omega
    by_cases h1 : (0 + 1) + (WriteByteSlice RequestHash).length ≤ lmt
    · have h2 : lmt < ((0 + 1) + (WriteByteSlice RequestHash).length)
          + (WriteByteSlice Resp).length := by omega
      simp only [BinaryBytes, List.cons_append, List.append_assoc, readMessage, ReadUint8_cons,
        readTraceResponse,
        ReadByteSlice_WriteByteSlice lmt RequestHash (WriteByteSlice Resp ++ tl) (0 + 1) hlmt h1,
        ReadByteSlice_overflow lmt Resp tl _ hl hlmt hv.2 (by omega) h2]
      simp [msgTypeTraceRequest, msgTypeTraceResponse]
    · have h1' : lmt < (0 + 1) + (WriteByteSlice RequestHash).length := by omega
      simp only [BinaryBytes, List.cons_append, List.append_assoc, readMessage, ReadUint8_cons,
        readTraceResponse,
        ReadByteSlice_overflow lmt RequestHash (WriteByteSlice Resp ++ tl) (0 + 1) hl hlmt hv.1
          (by omega) h1']
      simp [msgTypeTraceRequest, msgTypeTraceResponse]
      rw [ReadByteSlice_of_err (lmt : Int) _ WireError.ErrBinaryReadOverflow rfl]

theorem BinaryBytes_eq_cons (m : Message) :
    ∃ tail, BinaryBytes m = m.typeByte :: tail := by
  cases m <;> simp [BinaryBytes, Message.typeByte]

theorem DecodeMessage_BinaryBytes_append (m : Message) (tl : List Byte)
    (hfit : (BinaryBytes m).length ≤ maxTraceMessageSize) :
    DecodeMessage (BinaryBytes m ++ tl) = Except.ok (m.typeByte, m, none) := by
  have hlmt : maxTraceMessageSize < 2 ^ 61 := by unfold maxTraceMessageSize; omega
  have hread := readMessage_BinaryBytes maxTraceMessageSize m tl hlmt hfit
  obtain ⟨tail, htail⟩ := BinaryBytes_eq_cons m
  have hchk : ¬ (((maxTraceMessageSize : Nat) : Int) ≠ 0 ∧
      ((maxTraceMessageSize : Nat) : Int) < (((BinaryBytes m).length : Nat) : Int) ∧
      (none : Option WireError) = none) := by
    intro hc
    have := hc.2.1
    omega
  have hbin : ReadBinary (BinaryBytes m ++ tl) ((maxTraceMessageSize : Nat) : Int)
      = (m, { rest := tl, n := (BinaryBytes m).length, err := none }) := by
    simp only [ReadBinary]
    rw [hread]
    dsimp only
    rw [if_neg hchk]
  have hcons : BinaryBytes m ++ tl = m.typeByte :: (tail ++ tl) := by
    rw [htail]; rfl
  have hdef : DecodeMessage (m.typeByte :: (tail ++ tl))
      = Except.ok (m.typeByte,
          (ReadBinary (m.typeByte :: (tail ++ tl)) ((maxTraceMessageSize : Nat) : Int)).1,
          (ReadBinary (m.typeByte :: (tail ++ tl)) ((maxTraceMessageSize : Nat) : Int)).2.err) :=
    rfl
  rw [hcons, hdef, ← hcons, hbin]

theorem DecodeMessage_BinaryBytes_overflow (m : Message) (tl : List Byte) (hv : m.valid)
    (hover : maxTraceMessageSize < (BinaryBytes m).length) :
    ∃ msg, DecodeMessage (BinaryBytes m ++ tl)
      = Except.ok (m.typeByte, msg, some WireError.ErrBinaryReadOverflow) := by
  have hlmt : maxTraceMessageSize < 2 ^ 61 := by unfold maxTraceMessageSize; omega
  have hl : 0 < maxTraceMessageSize := by unfold maxTraceMessageSize; omega
  have hread := readMessage_overflow maxTraceMessageSize m tl hl hlmt hv hover
  obtain ⟨tail, htail⟩ := BinaryBytes_eq_cons m
  have hbin : (ReadBinary (BinaryBytes m ++ tl) ((maxTraceMessageSize : Nat) : Int)).2.err
      = some WireError.ErrBinaryReadOverflow := by
    simp only [ReadBinary]
    split_ifs with hc
    · rfl
    · exact hread
  have hcons : BinaryBytes m ++ tl = m.typeByte :: (tail ++ tl) := by
    rw [htail]; rfl
  have hdef : DecodeMessage (m.typeByte :: (tail ++ tl))
      = Except.ok (m.typeByte,
          (ReadBinary (m.typeByte :: (tail ++ tl)) ((maxTraceMessageSize : Nat) : Int)).1,
          (ReadBinary (m.typeByte :: (tail ++ tl)) ((maxTraceMessageSize : Nat) : Int)).2.err) :=
    rfl
  refine ⟨(ReadBinary (BinaryBytes m ++ tl) ((maxTraceMessageSize : Nat) : Int)).1, ?_⟩
  rw [hcons, hdef, ← hcons, hbin]

/-! ## The go-wire reader on truncated input -/

theorem ReadFull_short (len : Nat) (s : ReadState) (he : s.err = none)
    (hshort : s.rest.length < len) : (ReadFull len s).2.err ≠ none := by
  have hlen : (s.rest.take len).length ≠ len := by
    rw [List.length_take]; omega
  simp only [ReadFull, he]
  rw [if_neg hlen]
  split_ifs <;> simp

theorem ReadFull_err_of_err (len : Nat) (s : ReadState) (he : s.err ≠ none) :
    (ReadFull len s).2.err ≠ none := by
  cases h : s.err with
  | none => exact absurd h he
  | some e => simp [ReadFull, h]

theorem ReadByteSlice_err_of_err (lmt : Int) (s : ReadState) (he : s.err ≠ none) :
    (ReadByteSlice lmt s).2.err ≠ none := by
  cases h : s.err with
  | none => exact absurd h he
  | some e => rw [ReadByteSlice_of_err lmt s e h]; simp [h]

theorem ReadByteSlice_err_of_varint_err (lmt : Int) (s : ReadState)
    (h : (ReadVarint s).2.err ≠ none) : (ReadByteSlice lmt s).2.err ≠ none := by
  have hsome : (ReadVarint s).2.err.isSome = true := by
    cases he : (ReadVarint s).2.err with
    | none => exact absurd he h
    | some e => rfl
  simp only [ReadByteSlice]
  rw [if_pos hsome]
  exact h

theorem ReadVarint_truncated (L : Nat) (h : L < 2 ^ 63) (j n : Nat)
    (hj : j < (WriteVarint (L : Int)).length) :
    (ReadVarint { rest := (WriteVarint (L : Int)).take j, n := n, err := none }).2.err
      ≠ none := by
  have hle := uvarintSize_le L
  have hval : (toByte (uvarintSize L)).val = uvarintSize L := by
    rw [toByte_val]; omega
  have hnib : ¬ (uvarintSize L / 16 = 15) := by omega
  have hlenW := length_WriteVarint L h
  rw [WriteVarint_natCast L h] at hj ⊢
  cases j with
  | zero => simp [ReadVarint, ReadUint8, ReadFull]
  | succ i =>
    have hdl : ((PutUint64 L).drop (8 - uvarintSize L)).length = uvarintSize L := by
      simp [length_PutUint64]; omega
    have hi : i < uvarintSize L := by
      simp only [List.length_cons, hdl] at hj; omega
    have hz : ¬ (uvarintSize L = 0) := by omega
    have h8 : ¬ (8 < uvarintSize L) := by omega
    simp only [ReadVarint, List.take_succ_cons, ReadUint8_cons, hval, hnib, decide_False,
      Bool.false_eq_true, if_false, h8, hz]
    apply ReadFull_short
    · rfl
    · show (List.take i _).length < _
      rw [List.length_take]; omega

theorem ReadByteSlice_truncated (lmt : Nat) (d : List Byte) (j n : Nat)
    (hlmt : lmt < 2 ^ 61) (hfit : n + (WriteByteSlice d).length ≤ lmt)
    (hj : j < (WriteByteSlice d).length) :
    (ReadByteSlice (lmt : Int)
      { rest := (WriteByteSlice d).take j, n := n, err := none }).2.err ≠ none := by
  have hdl := length_le_WriteByteSlice d
  have hd : d.length < 2 ^ 63 := by omega
  have hlenW := length_WriteVarint d.length hd
  have hlen := length_WriteByteSlice d hd
  by_cases hjv : j < (WriteVarint (d.length : Int)).length
  · have htake : (WriteByteSlice d).take j = (WriteVarint (d.length : Int)).take j := by
      unfold WriteByteSlice
      rw [List.take_append_of_le_length (by omega)]
    have hv := ReadVarint_truncated d.length hd j n hjv
    rw [htake]
    exact ReadByteSlice_err_of_varint_err _ _ hv
  · have htake : (WriteByteSlice d).take j
        = WriteVarint (d.length : Int) ++ d.take (j - (WriteVarint (d.length : Int)).length) := by
      unfold WriteByteSlice
      rw [List.take_append_eq_append_take, List.take_of_length_le (by omega)]
    have hsum : int64 (((n + (1 + uvarintSize d.length) : Nat) : Int) + (d.length : Int))
        = ((n + (1 + uvarintSize d.length) : Nat) : Int) + (d.length : Int) :=
      int64_of_small _ (by omega) (by omega)
    have hchk : ¬ ((lmt : Int) ≠ 0 ∧ (lmt : Int) <
        max (d.length : Int)
          (int64 (((n + (1 + uvarintSize d.length) : Nat) : Int) + (d.length : Int)))) := by
      intro hc
      have h2 := hc.2
      rw [hsum, lt_max_iff] at h2
      omega
    have hneg : ¬ ((d.length : Int) < 0) := by omega
    rw [htake]
    simp only [ReadByteSlice]
    rw [ReadVarint_WriteVarint d.length hd _ n]
    dsimp only
    rw [if_neg (by simp), if_neg hneg, if_neg hchk, Int.toNat_ofNat]
    apply ReadFull_short
    · rfl
    · show (List.take _ d).length < _
      rw [List.length_take]; omega

theorem ReadBinary_err_of_err (bz : List Byte) (lmt : Int)
    (h : (readMessage lmt { rest := bz, n := 0, err := none }).2.err ≠ none) :
    (ReadBinary bz lmt).2.err ≠ none := by
  simp only [ReadBinary]
  split_ifs with hc
  · simp
  · exact h

theorem readMessage_truncated (lmt : Nat) (m : Message) (j : Nat) (hlmt : lmt < 2 ^ 61)
    (hfit : (BinaryBytes m).length ≤ lmt) (hj0 : 0 < j) (hj : j < (BinaryBytes m).length) :
    (readMessage (lmt : Int) { rest := (BinaryBytes m).take j, n := 0, err := none }).2.err
      ≠ none := by
  obtain ⟨i, rfl⟩ : ∃ i, j = i + 1 := ⟨j - 1, by omega⟩
  cases m with
  | nil =>
    simp [BinaryBytes] at hj
  | traceRequest Data =>
    have hi : i < (WriteByteSlice Data).length := by
      simp [BinaryBytes] at hj; omega
    have h1 : (0 + 1) + (WriteByteSlice Data).length ≤ lmt := by
      simp [BinaryBytes] at hfit; omega
    have hread := ReadByteSlice_truncated lmt Data i (0 + 1) hlmt h1 hi
    simp only [BinaryBytes, List.take_succ_cons, readMessage, ReadUint8_cons, readTraceRequest]
    simpa [msgTypeTraceRequest] using hread
  | traceResponse RequestHash Resp =>
    have hlen : (BinaryBytes (Message.traceResponse RequestHash Resp)).length
        = 1 + (WriteByteSlice RequestHash).length + (WriteByteSlice Resp).length := by
      simp [BinaryBytes]; omega
    have h1 : (0 + 1) + (WriteByteSlice RequestHash).length ≤ lmt := by omega
    have h2 : ((0 + 1) + (WriteByteSlice RequestHash).length)
        + (WriteByteSlice Resp).length ≤ lmt := by omega
    simp only [BinaryBytes, List.take_succ_cons, readMessage, ReadUint8_cons,
      readTraceResponse]
    have hgoal : (ReadByteSlice (lmt : Int) (ReadByteSlice (lmt : Int)
        { rest := (WriteByteSlice RequestHash ++ WriteByteSlice Resp).take i, n := 0 + 1,
          err := none }).2).2.err ≠ none := by
      by_cases hi : i < (WriteByteSlice RequestHash).length
      · rw [List.take_append_of_le_length (by omega)]
        exact ReadByteSlice_err_of_err _ _
          (ReadByteSlice_truncated lmt RequestHash i (0 + 1) hlmt h1 hi)
      · rw [List.take_append_eq_append_take, List.take_of_length_le (by omega),
          ReadByteSlice_WriteByteSlice lmt RequestHash _ (0 + 1) hlmt h1]
        exact ReadByteSlice_truncated lmt Resp _ _ hlmt h2 (by omega)
    simpa [msgTypeTraceRequest, msgTypeTraceResponse] using hgoal

theorem DecodeMessage_truncated (m : Message) (j : Nat)
    (hfit : (BinaryBytes m).length ≤ maxTraceMessageSize)
    (hj0 : 0 < j) (hj : j < (BinaryBytes m).length) :
    ∃ msg e, DecodeMessage ((BinaryBytes m).take j) = Except.ok (m.typeByte, msg, some e) := by
  have hlmt : maxTraceMessageSize < 2 ^ 61 := by unfold maxTraceMessageSize; omega
  have hread := ReadBinary_err_of_err _ _
    (readMessage_truncated maxTraceMessageSize m j hlmt hfit hj0 hj)
  obtain ⟨tail, htail⟩ := BinaryBytes_eq_cons m
  obtain ⟨i, rfl⟩ : ∃ i, j = i + 1 := ⟨j - 1, by omega⟩
  have hcons : (BinaryBytes m).take (i + 1) = m.typeByte :: tail.take i := by
    rw [htail]; rfl
  have hdef : DecodeMessage (m.typeByte :: tail.take i)
      = Except.ok (m.typeByte,
          (ReadBinary (m.typeByte :: tail.take i) ((maxTraceMessageSize : Nat) : Int)).1,
          (ReadBinary (m.typeByte :: tail.take i) ((maxTraceMessageSize : Nat) : Int)).2.err) :=
    rfl
  rw [hcons] at hread ⊢
  rw [hdef]
  cases herr : (ReadBinary (m.typeByte :: tail.take i)
      ((maxTraceMessageSize : Nat) : Int)).2.err with
  | none => exact absurd herr hread
  | some e => exact ⟨_, e, rfl⟩

/-! ## Dispatch in `Receive` -/

theorem Receive_of_decode_error (tr : Reactor) (chID : Byte) (src : Peer)
    (msgBytes : List Byte) (msgType : Byte) (msg : Message) (e : WireError)
    (h : DecodeMessage msgBytes = Except.ok (msgType, msg, some e)) :
    Receive tr chID src msgBytes
      = { events := [Event.LogWarn e], outcome := Except.ok () } := by
  simp only [Receive, h]

theorem Receive_traceRequest (tr : Reactor) (src : Peer) (msgBytes : List Byte)
    (msgType : Byte) (Data : List Byte)
    (h : DecodeMessage msgBytes = Except.ok (msgType, Message.traceRequest Data, none)) :
    Receive tr SpecialOPChannel src msgBytes
      = receiveTraceRequest tr src (Message.traceRequest Data) Data := by
  simp only [Receive, h, if_true]

theorem Receive_traceResponse (tr : Reactor) (src : Peer) (msgBytes : List Byte)
    (msgType : Byte) (RequestHash Resp : List Byte)
    (h : DecodeMessage msgBytes
      = Except.ok (msgType, Message.traceResponse RequestHash Resp, none)) :
    Receive tr SpecialOPChannel src msgBytes
      = receiveTraceResponse tr (Message.traceResponse RequestHash Resp) RequestHash Resp := by
  simp only [Receive, h, if_true]

theorem Receive_nil (tr : Reactor) (chID : Byte) (src : Peer) (msgBytes : List Byte)
    (msgType : Byte)
    (h : DecodeMessage msgBytes = Except.ok (msgType, Message.nil, none)) :
    Receive tr chID src msgBytes = { events := [], outcome := Except.ok () } := by
  simp only [Receive, h]
  split_ifs <;> rfl

theorem Receive_other_channel (tr : Reactor) (chID : Byte) (src : Peer)
    (msgBytes : List Byte) (msgType : Byte) (msg : Message)
    (hch : chID ≠ SpecialOPChannel)
    (h : DecodeMessage msgBytes = Except.ok (msgType, msg, none)) :
    Receive tr chID src msgBytes = { events := [], outcome := Except.ok () } := by
  simp only [Receive, h, if_neg hch]

theorem DecodeMessage_cons (b : Byte) (tl : List Byte) :
    ∃ msg err, DecodeMessage (b :: tl) = Except.ok (b, msg, err) :=
  ⟨_, _, rfl⟩

theorem broadcastLoop_eq (src : Peer) (msg : Message) (ps : List Peer) :
    broadcastLoop src msg ps
      = (ps.filter (fun p => !p.Equals src)).map
          (fun p => Event.Send p SpecialOPChannel msg) := by
  induction ps with
  | nil => rfl
  | cons p ps ih =>
    by_cases hp : p.Equals src = true
    · simp [broadcastLoop, hp, ih]
    · simp [broadcastLoop, hp, ih]

theorem sends_broadcastLoop (src : Peer) (msg : Message) (ps : List Peer) :
    sends (broadcastLoop src msg ps) = broadcastLoop src msg ps := by
  induction ps with
  | nil => rfl
  | cons p ps ih =>
    by_cases hp : p.Equals src = true
    · simpa [broadcastLoop, hp] using ih
    · simp only [broadcastLoop, hp, Bool.not_false, if_true]
      simp only [sends, List.filter_cons, if_true] at ih ⊢
      rw [ih]

theorem mem_broadcastLoop (src : Peer) (msg : Message) (ps : List Peer) (e : Event)
    (he : e ∈ broadcastLoop src msg ps) :
    ∃ p, p ∈ ps ∧ p.Equals src = false ∧ e = Event.Send p SpecialOPChannel msg := by
  rw [broadcastLoop_eq] at he
  simp only [List.mem_map, List.mem_filter] at he
  obtain ⟨p, ⟨hp, hne⟩, rfl⟩ := he
  exact ⟨p, hp, by simpa using hne, rfl⟩

theorem Peer.Equals_self (p : Peer) : p.Equals p = true := by
  simp [Peer.Equals]

/-! ## The claims -/

/-- C1 (anti-echo broadcast): when a frame received on channel `0x50` decodes to
a `TraceRequest` and `Router.TraceRequest` returns `(true, nil)`, the sends of
`Receive` are exactly one send of the decoded message on channel `0x50` to each
peer of the list that is not `Equals` to the source, in list order; no send goes
to the source; nothing is sent for the empty list and for the list holding only
the source; the call returns normally. -/
theorem receive_broadcast_excludes_source (tr : Reactor) (src : Peer)
    (msgBytes : List Byte) (msgType : Byte) (Data : List Byte)
    (hdec : DecodeMessage msgBytes = Except.ok (msgType, Message.traceRequest Data, none))
    (hrouter : tr.router.TraceRequest (HashMessage tr.BinarySha256 (Message.traceRequest Data))
        src.PubKey Data (tr.channelAttributes.index SpecialOPChannel).ValidatorOnly
      = (true, none)) :
    sends (Receive tr SpecialOPChannel src msgBytes).events
        = (tr.Switch.List.filter (fun p => !p.Equals src)).map
            (fun p => Event.Send p SpecialOPChannel (Message.traceRequest Data))
      ∧ (∀ chID msg, Event.Send src chID msg ∉ (Receive tr SpecialOPChannel src msgBytes).events)
      ∧ (tr.Switch.List = [] ∨ tr.Switch.List = [src] →
          sends (Receive tr SpecialOPChannel src msgBytes).events = [])
      ∧ (Receive tr SpecialOPChannel src msgBytes).outcome = Except.ok () := by
  have hrec : Receive tr SpecialOPChannel src msgBytes
      = { events := Event.RouterTraceRequest
            (HashMessage tr.BinarySha256 (Message.traceRequest Data)) src.PubKey Data
            (tr.channelAttributes.index SpecialOPChannel).ValidatorOnly ::
            broadcastLoop src (Message.traceRequest Data) tr.Switch.List,
          outcome := Except.ok () } := by
    rw [Receive_traceRequest tr src msgBytes msgType Data hdec]
    simp only [receiveTraceRequest, hrouter, if_true]
  have hsends : sends (Receive tr SpecialOPChannel src msgBytes).events
      = (tr.Switch.List.filter (fun p => !p.Equals src)).map
          (fun p => Event.Send p SpecialOPChannel (Message.traceRequest Data)) := by
    rw [hrec]
    have h1 : sends (Event.RouterTraceRequest
          (HashMessage tr.BinarySha256 (Message.traceRequest Data)) src.PubKey Data
          (tr.channelAttributes.index SpecialOPChannel).ValidatorOnly ::
          broadcastLoop src (Message.traceRequest Data) tr.Switch.List)
        = sends (broadcastLoop src (Message.traceRequest Data) tr.Switch.List) := by
      simp [sends]
    rw [h1, sends_broadcastLoop, broadcastLoop_eq]
  refine ⟨hsends, ?_, ?_, ?_⟩
  · intro chID msg hmem
    rw [hrec] at hmem
    simp only [List.mem_cons] at hmem
    rcases hmem with h | h
    · cases h
    · obtain ⟨p, _, hne, hp⟩ := mem_broadcastLoop src _ _ _ h
      cases hp
      rw [Peer.Equals_self] at hne
      cases hne
  · intro hlist
    rw [hsends]
    rcases hlist with h | h
    · rw [h]; rfl
    · rw [h]; simp [Peer.Equals_self]
  · rw [hrec]

/-- C2 (unicast exclusivity): when a frame received on channel `0x50` decodes to a
`TraceResponse`, `Router.TraceRespond` returns a non-nil key with no error, and a
peer with that key (the only one with it) is in the peer set, `Receive` performs
exactly one send, of the decoded message on channel `0x50`, to that peer, and
returns normally. -/
theorem receive_unicast_exactly_one (tr : Reactor) (src peer : Peer)
    (msgBytes : List Byte) (msgType : Byte) (RequestHash Resp pk : List Byte)
    (hdec : DecodeMessage msgBytes
      = Except.ok (msgType, Message.traceResponse RequestHash Resp, none))
    (hrouter : tr.router.TraceRespond RequestHash Resp = (some pk, none))
    (hmem : peer ∈ tr.Switch.List)
    (hkey : peer.Key = SprintfX pk)
    (huniq : ∀ q ∈ tr.Switch.List, q.Key = SprintfX pk → q = peer) :
    sends (Receive tr SpecialOPChannel src msgBytes).events
        = [Event.Send peer SpecialOPChannel (Message.traceResponse RequestHash Resp)]
      ∧ (Receive tr SpecialOPChannel src msgBytes).outcome = Except.ok () := by
  have hget : tr.Switch.Get (SprintfX pk) = some peer := by
    unfold PeerSet.Get
    cases hfind : List.find? (fun p => p.Key == SprintfX pk) tr.Switch.list with
    | none =>
      rw [List.find?_eq_none] at hfind
      have := hfind peer hmem
      simp [hkey] at this
    | some q =>
      have hq := List.find?_some hfind
      have hqmem := List.mem_of_find?_eq_some hfind
      have hqk : q.Key = SprintfX pk := by simpa using hq
      rw [huniq q hqmem hqk]
  rw [Receive_traceResponse tr src msgBytes msgType RequestHash Resp hdec]
  simp only [receiveTraceResponse, hrouter, hget]
  constructor <;> simp [sends]

/-- C6 (no send without a positive Router decision): on channel `0x50`, a
`TraceRequest` for which `Router.TraceRequest` returns an error or `(false, nil)`
and a `TraceResponse` for which `Router.TraceRespond` returns an error or a nil
key lead to no send, and `Receive` returns normally. -/
theorem receive_no_send_without_decision (tr : Reactor) (src : Peer)
    (msgBytes : List Byte) (msgType : Byte) :
    (∀ Data, DecodeMessage msgBytes = Except.ok (msgType, Message.traceRequest Data, none) →
      ((tr.router.TraceRequest (HashMessage tr.BinarySha256 (Message.traceRequest Data))
          src.PubKey Data (tr.channelAttributes.index SpecialOPChannel).ValidatorOnly).2 ≠ none
        ∨ tr.router.TraceRequest (HashMessage tr.BinarySha256 (Message.traceRequest Data))
          src.PubKey Data (tr.channelAttributes.index SpecialOPChannel).ValidatorOnly
          = (false, none)) →
      sends (Receive tr SpecialOPChannel src msgBytes).events = []
        ∧ (Receive tr SpecialOPChannel src msgBytes).outcome = Except.ok ())
    ∧ (∀ RequestHash Resp,
      DecodeMessage msgBytes
        = Except.ok (msgType, Message.traceResponse RequestHash Resp, none) →
      ((tr.router.TraceRespond RequestHash Resp).2 ≠ none
        ∨ (tr.router.TraceRespond RequestHash Resp).1 = none) →
      sends (Receive tr SpecialOPChannel src msgBytes).events = []
        ∧ (Receive tr SpecialOPChannel src msgBytes).outcome = Except.ok ()) := by
  constructor
  · intro Data hdec hres
    rw [Receive_traceRequest tr src msgBytes msgType Data hdec]
    simp only [receiveTraceRequest]
    rcases hres with h | h
    · cases herr : (tr.router.TraceRequest
          (HashMessage tr.BinarySha256 (Message.traceRequest Data)) src.PubKey Data
          (tr.channelAttributes.index SpecialOPChannel).ValidatorOnly).2 with
      | none => exact absurd herr h
      | some e => exact ⟨by simp [sends], rfl⟩
    · rw [h]
      exact ⟨by simp [sends], rfl⟩
  · intro RequestHash Resp hdec hres
    rw [Receive_traceResponse tr src msgBytes msgType RequestHash Resp hdec]
    simp only [receiveTraceResponse]
    cases herr : (tr.router.TraceRespond RequestHash Resp).2 with
    | some e => exact ⟨by simp [sends], rfl⟩
    | none =>
      rcases hres with h | h
      · exact absurd herr h
      · simp only [h]
        constructor <;> simp [sends]

/-- C7 (unknown channels are a no-op): for every channel other than `0x50`, every
source peer and every non-empty frame, `Receive` makes no Router call, performs no
send and returns normally. -/
theorem receive_unknown_channel_noop (tr : Reactor) (chID : Byte) (src : Peer)
    (msgBytes : List Byte) (hch : chID ≠ SpecialOPChannel) (hne : msgBytes ≠ []) :
    routerCalls (Receive tr chID src msgBytes).events = []
      ∧ sends (Receive tr chID src msgBytes).events = []
      ∧ (Receive tr chID src msgBytes).outcome = Except.ok () := by
  cases msgBytes with
  | nil => exact absurd rfl hne
  | cons b tl =>
    obtain ⟨msg, err, hdec⟩ := DecodeMessage_cons b tl
    cases err with
    | some e =>
      rw [Receive_of_decode_error tr chID src _ b msg e hdec]
      exact ⟨by simp [routerCalls], by simp [sends], rfl⟩
    | none =>
      rw [Receive_other_channel tr chID src _ b msg hch hdec]
      exact ⟨rfl, rfl, rfl⟩

/-- C8 (Router call arguments): for a reactor built by `NewTraceReactor` (with any
switch), a frame received on channel `0x50` from `src` that decodes to a
`TraceRequest` `m` leads to exactly one Router call, `TraceRequest` with the hash
`HashMessage(m)`, the bytes of the public key of `src`, the payload `m.Data` and
`validatorOnly = true`; `TraceRespond` is not called. -/
theorem receive_router_call_arguments (BinarySha256 : Message → List Byte) (r : Router)
    (sw : PeerSet) (src : Peer) (msgBytes : List Byte) (msgType : Byte) (Data : List Byte)
    (hdec : DecodeMessage msgBytes = Except.ok (msgType, Message.traceRequest Data, none)) :
    routerCalls
        (Receive ((NewTraceReactor BinarySha256 r).SetSwitch sw) SpecialOPChannel src
          msgBytes).events
      = [Event.RouterTraceRequest (HashMessage BinarySha256 (Message.traceRequest Data))
          src.PubKey Data true]
    ∧ (newChannelAttributes.index SpecialOPChannel).ValidatorOnly = true := by
  have hattr : (newChannelAttributes.index SpecialOPChannel).ValidatorOnly = true := rfl
  refine ⟨?_, hattr⟩
  rw [Receive_traceRequest _ src msgBytes msgType Data hdec]
  simp only [receiveTraceRequest, NewTraceReactor, Reactor.SetSwitch, hattr]
  have hloop : routerCalls (broadcastLoop src (Message.traceRequest Data) sw.List) = [] := by
    rw [broadcastLoop_eq]
    simp only [routerCalls, List.filter_eq_nil_iff, List.mem_map]
    rintro a ⟨x, _, rfl⟩
    simp
  cases hres : r.TraceRequest (HashMessage BinarySha256 (Message.traceRequest Data))
      src.PubKey Data true with
  | mk broadcast err =>
    cases err with
    | some e => simp [routerCalls]
    | none =>
      cases broadcast with
      | false => simp [routerCalls]
      | true =>
        simp only [if_true]
        have : routerCalls (Event.RouterTraceRequest
            (HashMessage BinarySha256 (Message.traceRequest Data)) src.PubKey Data true ::
            broadcastLoop src (Message.traceRequest Data) sw.List)
          = Event.RouterTraceRequest
            (HashMessage BinarySha256 (Message.traceRequest Data)) src.PubKey Data true ::
            routerCalls (broadcastLoop src (Message.traceRequest Data) sw.List) := by
          simp [routerCalls]
        rw [this, hloop]

theorem DecodeMessage_unregistered (b : Byte) (tl : List Byte)
    (h0 : b ≠ 0x00) (h1 : b ≠ msgTypeTraceRequest) (h2 : b ≠ msgTypeTraceResponse) :
    DecodeMessage (b :: tl)
      = Except.ok (b, Message.nil, some (WireError.UnexpectedTypeByte b)) := by
  simp [DecodeMessage, ReadBinary, readMessage, ReadUint8_cons, h0, h1, h2]

theorem DecodeMessage_zero (tl : List Byte) :
    DecodeMessage (0x00 :: tl) = Except.ok (0x00, Message.nil, none) := by
  simp [DecodeMessage, ReadBinary, readMessage, ReadUint8_cons, maxTraceMessageSize]

/-- C4 (code at the failing input): `DecodeMessage` on the empty byte sequence
indexes `bz[0]` and panics, and so does `Receive` on an empty frame, on every
channel. -/
theorem decode_empty_frame_panics (tr : Reactor) (chID : Byte) (src : Peer) :
    DecodeMessage [] = Except.error GoPanic.indexOutOfRange
      ∧ (Receive tr chID src []).outcome = Except.error GoPanic.indexOutOfRange
      ∧ (Receive tr chID src []).events = [] :=
  ⟨rfl, rfl, rfl⟩

/-! ## Scenarios, witnesses and the remaining claims -/

theorem DecodeMessage_pingFrame :
    DecodeMessage pingFrame = Except.ok (msgTypeTraceRequest, Message.traceRequest pingData, none) := by
  have h : pingFrame = BinaryBytes (Message.traceRequest pingData) ++ [] := by decide
  rw [h]
  exact DecodeMessage_BinaryBytes_append _ [] (by decide)

theorem DecodeMessage_pongFrame :
    DecodeMessage pongFrame
      = Except.ok (msgTypeTraceResponse,
          Message.traceResponse [0xAA] [0x70, 0x6F, 0x6E, 0x67], none) := by
  have h : pongFrame
      = BinaryBytes (Message.traceResponse [0xAA] [0x70, 0x6F, 0x6E, 0x67]) ++ [] := by decide
  rw [h]
  exact DecodeMessage_BinaryBytes_append _ [] (by decide)

theorem receiveTraceResponse_absent_peer (tr : Reactor) (msg : Message)
    (RequestHash Resp pk : List Byte)
    (hrouter : tr.router.TraceRespond RequestHash Resp = (some pk, none))
    (hget : tr.Switch.Get (SprintfX pk) = none) :
    receiveTraceResponse tr msg RequestHash Resp
      = { events := [Event.RouterTraceRespond RequestHash Resp],
          outcome := Except.error GoPanic.nilPointerDereference } := by
  simp only [receiveTraceResponse, hrouter, hget]

/-- C3 (the code at the failing input): with P2 disconnected, a `TraceResponse`
on channel `0x50` for which the Router names P2 makes `Receive` call `Send` on the
nil result of the lookup: the call ends in a nil pointer panic after the Router
call, with no send. -/
theorem receive_unicast_absent_peer_panics :
    DecodeMessage pongFrame
        = Except.ok (msgTypeTraceResponse, Message.traceResponse [0xAA] [0x70, 0x6F, 0x6E, 0x67],
            none)
      ∧ routerAccept.TraceRespond [0xAA] [0x70, 0x6F, 0x6E, 0x67]
          = (some (scenarioPubKey 2), none)
      ∧ (scenarioReactor routerAccept [peerP1, peerP3]).Switch.Get
          (SprintfX (scenarioPubKey 2)) = none
      ∧ (Receive (scenarioReactor routerAccept [peerP1, peerP3]) SpecialOPChannel peerP1
          pongFrame).outcome = Except.error GoPanic.nilPointerDereference
      ∧ sends (Receive (scenarioReactor routerAccept [peerP1, peerP3]) SpecialOPChannel peerP1
          pongFrame).events = [] := by
  have hget : (scenarioReactor routerAccept [peerP1, peerP3]).Switch.Get
      (SprintfX (scenarioPubKey 2)) = none := by decide
  have hr : (scenarioReactor routerAccept [peerP1, peerP3]).router.TraceRespond
      [0xAA] [0x70, 0x6F, 0x6E, 0x67] = (some (scenarioPubKey 2), none) := rfl
  refine ⟨DecodeMessage_pongFrame, rfl, hget, ?_, ?_⟩
  · rw [Receive_traceResponse _ _ _ _ _ _ DecodeMessage_pongFrame,
      receiveTraceResponse_absent_peer _ _ _ _ _ hr hget]
  · rw [Receive_traceResponse _ _ _ _ _ _ DecodeMessage_pongFrame,
      receiveTraceResponse_absent_peer _ _ _ _ _ hr hget]
    simp [sends]

/-- Scenario 1: P1 sends "ping", the Router returns `(true, nil)`, and with P1, P2
and P3 connected the message goes to P2 and P3 only. -/
theorem receive_broadcast_excludes_source_witness :
    sends (Receive (scenarioReactor routerAccept [peerP1, peerP2, peerP3]) SpecialOPChannel
        peerP1 pingFrame).events
      = [Event.Send peerP2 SpecialOPChannel (Message.traceRequest pingData),
         Event.Send peerP3 SpecialOPChannel (Message.traceRequest pingData)] :=
  (receive_broadcast_excludes_source (scenarioReactor routerAccept [peerP1, peerP2, peerP3])
    peerP1 pingFrame msgTypeTraceRequest pingData DecodeMessage_pingFrame rfl).1.trans
    (by decide)

/-- Scenario 3 with P2 connected: exactly P2 receives the response. -/
theorem receive_unicast_exactly_one_witness :
    sends (Receive (scenarioReactor routerAccept [peerP1, peerP2, peerP3]) SpecialOPChannel
        peerP1 pongFrame).events
      = [Event.Send peerP2 SpecialOPChannel
          (Message.traceResponse [0xAA] [0x70, 0x6F, 0x6E, 0x67])] :=
  (receive_unicast_exactly_one (scenarioReactor routerAccept [peerP1, peerP2, peerP3])
    peerP1 peerP2 pongFrame msgTypeTraceResponse [0xAA] [0x70, 0x6F, 0x6E, 0x67]
    (scenarioPubKey 2) DecodeMessage_pongFrame rfl (by decide) (by decide) (by decide)).1

theorem DecodeMessage_tag_only (b : Byte)
    (hb : b = msgTypeTraceRequest ∨ b = msgTypeTraceResponse) :
    ∃ msg, DecodeMessage [b] = Except.ok (b, msg, some WireError.EOF) := by
  rcases hb with h | h <;> subst h
  · refine ⟨Message.traceRequest [], ?_⟩
    simp [DecodeMessage, ReadBinary, readMessage, ReadUint8_cons, readTraceRequest,
      ReadByteSlice, ReadVarint, ReadUint8, ReadFull, setFirstErr, msgTypeTraceRequest]
  · refine ⟨Message.traceResponse [] [], ?_⟩
    simp [DecodeMessage, ReadBinary, readMessage, ReadUint8_cons, readTraceResponse,
      ReadByteSlice, ReadVarint, ReadUint8, ReadFull, setFirstErr, msgTypeTraceRequest,
      msgTypeTraceResponse]

/-- C5 (decode errors are contained): for every channel, source peer and frame
for which `DecodeMessage` returns an error, `Receive` makes no Router call,
performs no send and returns normally (it only logs the error).  The same holds
for every frame whose first byte is neither `0x11` nor `0x12`.  A frame starting
with `0xFF`, a frame that ends right after a valid tag, and every proper non-empty
initial segment of the encoding of a message do return an error. -/
theorem receive_decode_error_contained (tr : Reactor) (chID : Byte) (src : Peer) :
    (∀ msgBytes msgType msg e,
        DecodeMessage msgBytes = Except.ok (msgType, msg, some e) →
        routerCalls (Receive tr chID src msgBytes).events = []
          ∧ sends (Receive tr chID src msgBytes).events = []
          ∧ (Receive tr chID src msgBytes).outcome = Except.ok ())
    ∧ (∀ b tl, b ≠ msgTypeTraceRequest → b ≠ msgTypeTraceResponse →
        routerCalls (Receive tr chID src (b :: tl)).events = []
          ∧ sends (Receive tr chID src (b :: tl)).events = []
          ∧ (Receive tr chID src (b :: tl)).outcome = Except.ok ())
    ∧ (∀ tl, DecodeMessage (0xFF :: tl)
        = Except.ok (0xFF, Message.nil, some (WireError.UnexpectedTypeByte 0xFF)))
    ∧ (∀ b, b = msgTypeTraceRequest ∨ b = msgTypeTraceResponse →
        ∃ msg, DecodeMessage [b] = Except.ok (b, msg, some WireError.EOF))
    ∧ (∀ m j, (BinaryBytes m).length ≤ maxTraceMessageSize → 0 < j →
        j < (BinaryBytes m).length →
        ∃ msg e, DecodeMessage ((BinaryBytes m).take j)
          = Except.ok (m.typeByte, msg, some e)) := by
  refine ⟨?_, ?_, ?_, ?_, fun m j hfit hj0 hj => DecodeMessage_truncated m j hfit hj0 hj⟩
  · intro msgBytes msgType msg e hdec
    rw [Receive_of_decode_error tr chID src msgBytes msgType msg e hdec]
    exact ⟨by simp [routerCalls], by simp [sends], rfl⟩
  · intro b tl h1 h2
    by_cases h0 : b = 0x00
    · subst h0
      rw [Receive_nil tr chID src _ _ (DecodeMessage_zero tl)]
      exact ⟨rfl, rfl, rfl⟩
    · rw [Receive_of_decode_error tr chID src _ _ _ _
        (DecodeMessage_unregistered b tl h0 h1 h2)]
      exact ⟨by simp [routerCalls], by simp [sends], rfl⟩
  · intro tl
    exact DecodeMessage_unregistered 0xFF tl (by decide) (by decide) (by decide)
  · intro b hb
    exact DecodeMessage_tag_only b hb

/-- Scenario 4: the frame `[0xFF]` on channel `0x50` has no effect. -/
theorem receive_decode_error_contained_witness :
    DecodeMessage [0xFF]
        = Except.ok (0xFF, Message.nil, some (WireError.UnexpectedTypeByte 0xFF))
      ∧ routerCalls (Receive (scenarioReactor routerAccept [peerP1, peerP2, peerP3])
          SpecialOPChannel peerP1 [0xFF]).events = []
      ∧ sends (Receive (scenarioReactor routerAccept [peerP1, peerP2, peerP3])
          SpecialOPChannel peerP1 [0xFF]).events = []
      ∧ (Receive (scenarioReactor routerAccept [peerP1, peerP2, peerP3])
          SpecialOPChannel peerP1 [0xFF]).outcome = Except.ok () :=
  ⟨DecodeMessage_unregistered 0xFF [] (by decide) (by decide) (by decide),
   (receive_decode_error_contained (scenarioReactor routerAccept [peerP1, peerP2, peerP3])
      SpecialOPChannel peerP1).1 [0xFF] 0xFF Message.nil (WireError.UnexpectedTypeByte 0xFF)
      (DecodeMessage_unregistered 0xFF [] (by decide) (by decide) (by decide))⟩

/-- Scenario 2: the Router returns `(false, nil)` and no peer receives a frame. -/
theorem receive_no_send_without_decision_witness :
    routerDecline.TraceRequest (HashMessage scenarioDigest (Message.traceRequest pingData))
        peerP1.PubKey pingData true = (false, none)
      ∧ sends (Receive (scenarioReactor routerDecline [peerP1, peerP2, peerP3])
          SpecialOPChannel peerP1 pingFrame).events = []
      ∧ (Receive (scenarioReactor routerDecline [peerP1, peerP2, peerP3])
          SpecialOPChannel peerP1 pingFrame).outcome = Except.ok () :=
  ⟨rfl, (receive_no_send_without_decision (scenarioReactor routerDecline [peerP1, peerP2, peerP3])
    peerP1 pingFrame msgTypeTraceRequest).1 pingData DecodeMessage_pingFrame (Or.inr rfl)⟩

/-- A well-formed request on channel `0x51` has no effect. -/
theorem receive_unknown_channel_noop_witness :
    (0x51 : Byte) ≠ SpecialOPChannel ∧ pingFrame ≠ []
      ∧ routerCalls (Receive (scenarioReactor routerAccept [peerP1, peerP2, peerP3])
          0x51 peerP1 pingFrame).events = []
      ∧ sends (Receive (scenarioReactor routerAccept [peerP1, peerP2, peerP3])
          0x51 peerP1 pingFrame).events = []
      ∧ (Receive (scenarioReactor routerAccept [peerP1, peerP2, peerP3])
          0x51 peerP1 pingFrame).outcome = Except.ok () :=
  ⟨by decide, by decide,
   receive_unknown_channel_noop (scenarioReactor routerAccept [peerP1, peerP2, peerP3])
    0x51 peerP1 pingFrame (by decide) (by decide)⟩

/-- The Router call for the "ping" request of P1. -/
theorem receive_router_call_arguments_witness :
    routerCalls
        (Receive ((NewTraceReactor scenarioDigest routerAccept).SetSwitch
          { list := [peerP1, peerP2, peerP3] }) SpecialOPChannel peerP1 pingFrame).events
      = [Event.RouterTraceRequest (HashMessage scenarioDigest (Message.traceRequest pingData))
          peerP1.PubKey pingData true] :=
  (receive_router_call_arguments scenarioDigest routerAccept { list := [peerP1, peerP2, peerP3] }
    peerP1 pingFrame msgTypeTraceRequest pingData DecodeMessage_pingFrame).1

/-- C9 (size boundary, as the code has it): the limit of 1,048,576 bytes bounds
the bytes of the encoded message that the decoder consumes, whatever bytes follow
it in the frame.  The encoding of a valid message of at most 1,048,576 bytes
(exactly 1,048,576 included) decodes to the message, with or without trailing
bytes; the encoding of a valid message of 1,048,577 bytes or more is rejected with
`ErrBinaryReadOverflow`. -/
theorem decode_limit_bounds_consumed_bytes (m : Message) (tl : List Byte) (hv : m.valid) :
    ((BinaryBytes m).length ≤ maxTraceMessageSize →
        DecodeMessage (BinaryBytes m ++ tl) = Except.ok (m.typeByte, m, none))
    ∧ (maxTraceMessageSize < (BinaryBytes m).length →
        ∃ msg, DecodeMessage (BinaryBytes m ++ tl)
          = Except.ok (m.typeByte, msg, some WireError.ErrBinaryReadOverflow)) :=
  ⟨fun hfit => DecodeMessage_BinaryBytes_append m tl hfit,
   fun hover => DecodeMessage_BinaryBytes_overflow m tl hv hover⟩

theorem length_BinaryBytes_maximalRequest :
    (BinaryBytes maximalRequest).length = 1048576 := by
  have hd : (List.replicate 1048571 (0 : Byte)).length < 2 ^ 63 := by
    rw [List.length_replicate]; omega
  have hs : uvarintSize 1048571 = 3 := by decide
  have h1 : BinaryBytes maximalRequest
      = msgTypeTraceRequest :: WriteByteSlice (List.replicate 1048571 0) := rfl
  rw [h1, List.length_cons, length_WriteByteSlice _ hd, List.length_replicate, hs]

/-- A request whose encoding has exactly 1,048,576 bytes decodes. -/
theorem decode_limit_bounds_consumed_bytes_witness :
    (BinaryBytes maximalRequest).length = 1048576
      ∧ DecodeMessage (BinaryBytes maximalRequest ++ [])
          = Except.ok (msgTypeTraceRequest, maximalRequest, none) :=
  ⟨length_BinaryBytes_maximalRequest,
   (decode_limit_bounds_consumed_bytes maximalRequest []
      (by
        show (List.replicate 1048571 (0 : Byte)).length < 2 ^ 63
        rw [List.length_replicate]; omega)).1
      (by rw [length_BinaryBytes_maximalRequest]; unfold maxTraceMessageSize; omega)⟩

/-- C9 as stated fails: a frame of 1,048,577 bytes, a short well-formed request
followed by trailing bytes, decodes with no error. -/
theorem decode_oversized_frame_accepted :
    oversizedFrame.length = 1048577
      ∧ DecodeMessage oversizedFrame
          = Except.ok (msgTypeTraceRequest, Message.traceRequest [], none) := by
  constructor
  · unfold oversizedFrame
    rw [List.length_append, List.length_replicate]
    rfl
  · have h : oversizedFrame
        = BinaryBytes (Message.traceRequest []) ++ List.replicate 1048575 0 := by
      have : BinaryBytes (Message.traceRequest []) = [0x11, 0x00] := by decide
      unfold oversizedFrame
      rw [this]
    rw [h]
    exact DecodeMessage_BinaryBytes_append _ _ (by decide)

/-- C10 (codec round trip): for every message whose wire encoding (the tag byte
of its variant, `0x11` for a `TraceRequest` and `0x12` for a `TraceResponse`,
followed by its fields) fits in the maximum frame size, `DecodeMessage` applied to
the encoding returns no error, the message itself and the tag of its variant. -/
theorem decode_encode_round_trip (m : Message)
    (hfit : (BinaryBytes m).length ≤ maxTraceMessageSize) :
    DecodeMessage (BinaryBytes m) = Except.ok (m.typeByte, m, none)
      ∧ (∃ fields, BinaryBytes m = m.typeByte :: fields)
      ∧ (∀ Data, (Message.traceRequest Data).typeByte = 0x11)
      ∧ (∀ RequestHash Resp, (Message.traceResponse RequestHash Resp).typeByte = 0x12) := by
  refine ⟨?_, BinaryBytes_eq_cons m, fun _ => rfl, fun _ _ => rfl⟩
  have h := DecodeMessage_BinaryBytes_append m [] hfit
  rwa [List.append_nil] at h

/-- The round trip of `TraceResponse{RequestHash: [0xAA], Resp: "pong"}`. -/
theorem decode_encode_round_trip_witness :
    (BinaryBytes (Message.traceResponse [0xAA] [0x70, 0x6F, 0x6E, 0x67])).length
        ≤ maxTraceMessageSize
      ∧ BinaryBytes (Message.traceResponse [0xAA] [0x70, 0x6F, 0x6E, 0x67]) = pongFrame
      ∧ DecodeMessage (BinaryBytes (Message.traceResponse [0xAA] [0x70, 0x6F, 0x6E, 0x67]))
          = Except.ok (0x12, Message.traceResponse [0xAA] [0x70, 0x6F, 0x6E, 0x67], none) :=
  ⟨by decide, by decide,
   (decode_encode_round_trip (Message.traceResponse [0xAA] [0x70, 0x6F, 0x6E, 0x67])
      (by decide)).1⟩

end Trace
